import Mathlib

/-!
Verification development for the quotes crawler (src/pdp.py).

The crawler reads pending category URLs from a store, walks each category's
paginated pages under a shared request limit using a pool of workers,
extracts quote records from each page, appends them to the store, marks the
category done, and finally exports the stored records.

The embedding below translates the source:
  - the page representation: what the code observes of a fetched page
    (status code, whether parsing raises, the quote elements, the presence
    of a next-page link);
  - the per-quote extraction loop (lines 93-103), where indexing an empty
    xpath result raises and is caught by the surrounding handler;
  - the pagination loop of process_category (lines 79-113), including the
    order of the budget check (line 79), the fetch, the status test
    (line 85), and the counter increment (line 88);
  - the store writes of process_category (lines 115-118), which sit outside
    the try/except, so a raising insert or update propagates out of the job;
  - the scheduler (lines 41, 124-127): the pending query capped at
    request_limit, the worker pool, and future.result() re-raising;
  - the export step (lines 151-161).

Fetch results and store failures are supplied as oracle parameters.  A ghost
field records the list of URLs actually passed to the HTTP client, so that
the number of fetch attempts can be compared with the shared counter.

The sequential run model (runJobs / runCrawl) is the behaviour of the worker
pool under the sequential schedule (exactly the behaviour with one worker);
an interleaved small-step model of the shared counter appears further below
for the concurrency claim.
-/

/-- One quote element as the code observes it: the xpath results for the
text, the author, and the tag list (lines 94-96).  Indexing the first two
with [0] raises when the list is empty. -/
structure QuoteElem where
  text : List String
  author : List String
  tags : List String
deriving DecidableEq

/-- One extracted record (lines 98-103): quote text, author, tags joined
with a delimiter, and the paginated URL the record came from. -/
structure Record where
  quote : String
  author : String
  tags : String
  category_link : String
deriving DecidableEq

/-- What the code observes of one fetched page: whether html.fromstring
raises, the quote elements found by the xpath of line 91, and whether the
next-page xpath of line 105 returns a link. -/
structure Page where
  parseFail : Bool
  quotes : List QuoteElem
  nextLink : Bool
deriving DecidableEq

/-- Result of one requests.get call (line 84): either the call raises
(transport error / timeout), or it returns a response with a status code
and a page body. -/
inductive FetchOutcome where
  | err : FetchOutcome
  | response (status_code : Nat) (pg : Page) : FetchOutcome
deriving DecidableEq

/-- Terminal reason the pagination loop stopped.  Budget check failed
(line 79); an error or non-200 status or a raising parse/extraction broke
the loop (lines 85-86, 111-113); or no next-page link was found
(lines 105-107). -/
inductive Outcome where
  | budgetExhausted : Outcome
  | fetchError : Outcome
  | exhausted : Outcome
deriving DecidableEq

/-- The paginated URL of line 80: category link followed by
"/page/{page number}/". -/
def paginatedUrl (category_link : String) (page_number : Nat) : String :=
  category_link ++ ("/page/" ++ (toString page_number ++ "/"))

/-- The extraction loop over the quote elements of one page (lines 93-103).
Returns the records appended, in order, together with a flag telling
whether the loop raised (an element whose text or author xpath came back
empty makes the [0] index raise; earlier appends are kept). -/
def extractQuotesLoop (paginated_url : String) : List QuoteElem → List Record × Bool
  | [] => ([], false)
  | q :: rest =>
    match q.text.head?, q.author.head? with
    | some t, some a =>
      let more := extractQuotesLoop paginated_url rest
      (⟨t, a, String.intercalate " | " q.tags, paginated_url⟩ :: more.1, more.2)
    | _, _ => ([], true)

/-- The record produced from one quote element, when neither xpath result
is empty (lines 94-103). -/
def mkRecordOfQuote (paginated_url : String) (q : QuoteElem) : Option Record :=
  match q.text.head?, q.author.head? with
  | some t, some a => some ⟨t, a, String.intercalate " | " q.tags, paginated_url⟩
  | _, _ => none

/-- Result of one job's pagination loop: the accumulated records, the
terminal outcome, the final value of the shared counter, and (ghost) the
list of URLs passed to requests.get, in order. -/
structure WalkResult where
  records : List Record
  outcome : Outcome
  count : Nat
  fetched : List String
deriving DecidableEq

/-- The pagination loop of process_category (lines 79-113), for one job,
with the shared counter threaded through.  The loop condition of line 79
is the test count < request_limit at the head of every iteration; the
recursion is made structural on a fuel argument which the entry point
(processCategoryWalk) instantiates with request_limit - count, so fuel
reaches 0 exactly when the line 79 condition is false (the condition is
re-tested inside each step as well, so every budgetExhausted return
corresponds to a failed line 79 test).  Faithful points: a non-200 status
breaks before the increment (lines 85-86); the increment (line 88) happens
only after a 200 response and before parsing; a raising parse or extraction
is caught and breaks the loop keeping earlier records (lines 111-113); the
loop continues exactly when a next-page link is present (lines 105-109). -/
def processCategoryLoop (fetch : String → FetchOutcome) (request_limit : Nat)
    (category_link : String) :
    Nat → Nat → Nat → List Record → List String → WalkResult
  | 0, _, count, quotes_data, fetched => ⟨quotes_data, .budgetExhausted, count, fetched⟩
  | fuel + 1, page_number, count, quotes_data, fetched =>
    if count < request_limit then
      let paginated_url := paginatedUrl category_link page_number
      let fetched' := fetched ++ [paginated_url]
      match fetch paginated_url with
      | .err => ⟨quotes_data, .fetchError, count, fetched'⟩
      | .response status_code pg =>
        if status_code ≠ 200 then ⟨quotes_data, .fetchError, count, fetched'⟩
        else
          if pg.parseFail then ⟨quotes_data, .fetchError, count + 1, fetched'⟩
          else
            let ex := extractQuotesLoop paginated_url pg.quotes
            let quotes_data' := quotes_data ++ ex.1
            if ex.2 then ⟨quotes_data', .fetchError, count + 1, fetched'⟩
            else if pg.nextLink then
              processCategoryLoop fetch request_limit category_link
                fuel (page_number + 1) (count + 1) quotes_data' fetched'
            else ⟨quotes_data', .exhausted, count + 1, fetched'⟩
    else ⟨quotes_data, .budgetExhausted, count, fetched⟩

/-- One job's full pagination walk (lines 76-113): page number starts at 1,
the record list starts empty, the shared counter starts at its current
value.  The fuel request_limit - count is an upper bound on the number of
iterations the line 79 condition can still admit. -/
def processCategoryWalk (fetch : String → FetchOutcome) (request_limit : Nat)
    (category_link : String) (count : Nat) : WalkResult :=
  processCategoryLoop fetch request_limit category_link
    (request_limit - count) 1 count [] []

example :
    processCategoryWalk (fun _ => .response 404 ⟨false, [], false⟩) 1 "s" 0 =
      ⟨[], .fetchError, 0, ["s/page/1/"]⟩ := by decide

/-- A category's status in the store: the status field of a category_urls
document, which the script reads as pending and later sets to done. -/
inductive Status where
  | pending : Status
  | done : Status
deriving DecidableEq

/-- One document of the category_urls collection: its identity, its
page_url, and its status. -/
structure CategoryJob where
  id : Nat
  page_url : String
  status : Status
deriving DecidableEq

/-- The database state the script touches: the category_urls collection and
the quotes_data collection (insertion order kept). -/
structure Store where
  categories : List CategoryJob
  quotes : List Record
deriving DecidableEq

/-- The status of the category with the given id, read off the store
(None when no such document exists). -/
def statusOf (store : Store) (catId : Nat) : Option Status :=
  (store.categories.find? (fun c => decide (c.id = catId))).map (fun c => c.status)

/-- The update of line 118: set the status of the category with the given
id to done, leaving every other document and the quotes collection
unchanged. -/
def markDone (store : Store) (catId : Nat) : Store :=
  { store with
    categories := store.categories.map
      (fun c => if c.id = catId then { c with status := Status.done } else c) }

/-- Result of one process_category call in the run model: the store after
the job's writes, the final shared counter, the walk result, and whether an
uncaught store exception escaped the job (the insert of line 116 and the
update of line 118 sit outside the try/except of lines 83-113). -/
structure JobResult where
  store : Store
  count : Nat
  walk : WalkResult
  raised : Bool
deriving DecidableEq

/-- process_category (lines 51-118): run the pagination loop, then, if
records were collected, insert them (line 115-116), then mark the category
done (line 118).  The store failure oracles insertRaises / updateRaises
say, per category id, whether insert_many / update_one raises; a raising
call leaves the store as it was and aborts the rest of the function, and
the exception escapes the job (raised = true), since these calls are not
inside the try/except. -/
def process_category (fetch : String → FetchOutcome) (request_limit : Nat)
    (insertRaises updateRaises : Nat → Bool)
    (store : Store) (category : CategoryJob) (count : Nat) : JobResult :=
  let w := processCategoryWalk fetch request_limit category.page_url count
  if w.records ≠ [] ∧ insertRaises category.id = true then
    ⟨store, w.count, w, true⟩
  else
    let store1 := if w.records = [] then store
      else { store with quotes := store.quotes ++ w.records }
    if updateRaises category.id then ⟨store1, w.count, w, true⟩
    else ⟨markDone store1 category.id, w.count, w, false⟩

/-- The query of line 41: the category_urls documents with status pending,
capped (Mongo cursor limit) at request_limit — the very same value the user
entered as the maximum number of requests. -/
def pending_categories (store : Store) (request_limit : Nat) : List CategoryJob :=
  (store.categories.filter (fun c => decide (c.status = Status.pending))).take request_limit

/-- Aggregate result of running every submitted job: the final store, the
final shared counter, the (ghost) total number of requests.get calls
issued, and whether any job's exception escaped (in the script the first
such exception is re-raised by future.result() on line 127). -/
structure RunResult where
  store : Store
  count : Nat
  attempts : Nat
  raised : Bool
deriving DecidableEq

/-- The worker pool of lines 124-127 under the sequential schedule (the
exact behaviour of the pool with one worker, and one admissible
interleaving for any worker count as far as store writes go): each job runs
process_category to its own completion, against the store and shared
counter left by the previous jobs; every submitted job runs even when an
earlier one raised, because ThreadPoolExecutor's shutdown waits for
submitted work. -/
def runJobs (fetch : String → FetchOutcome) (request_limit : Nat)
    (insertRaises updateRaises : Nat → Bool) :
    List CategoryJob → Store → Nat → RunResult
  | [], store, count => ⟨store, count, 0, false⟩
  | c :: rest, store, count =>
    let jr := process_category fetch request_limit insertRaises updateRaises store c count
    let rr := runJobs fetch request_limit insertRaises updateRaises rest jr.store jr.count
    ⟨rr.store, rr.count, jr.walk.fetched.length + rr.attempts, jr.raised || rr.raised⟩

/-- The summary the script prints at lines 130-132: the final value of the
shared counter (printed as Total Requests Sent) and the number of
categories that were dispatched. -/
structure Summary where
  totalRequests : Nat
  categoriesProcessed : Nat
deriving DecidableEq

/-- Result of one whole run: the final store, the (ghost) number of fetch
attempts actually issued, and the summary — Except.error when some job's
uncaught exception was re-raised by future.result() (line 127), in which
case the run aborts before printing the summary or exporting. -/
structure CrawlResult where
  store : Store
  attempts : Nat
  summary : Except Unit Summary

/-- The whole run (lines 41-132): query the pending categories capped at
request_limit, submit one job per category, wait for all of them, and
report the summary — unless a job raised, in which case future.result()
re-raises and the run aborts with the store writes made so far kept. -/
def runCrawl (fetch : String → FetchOutcome) (insertRaises updateRaises : Nat → Bool)
    (request_limit : Nat) (store : Store) : CrawlResult :=
  let cats := pending_categories store request_limit
  let r := runJobs fetch request_limit insertRaises updateRaises cats store 0
  ⟨r.store, r.attempts, if r.raised then Except.error () else Except.ok ⟨r.count, cats.length⟩⟩

/-- One exported row (lines 151-158): the DataFrame built from the stored
documents with _id excluded has exactly the four record fields as columns,
and to_csv writes one row per document. -/
structure Row where
  quote : String
  author : String
  tags : String
  category_link : String
deriving DecidableEq

/-- export_data (lines 135-161): read every stored record and serialize it
as one row with the four fields quote, author, tags, category_link. -/
def export_data (quotes : List Record) : List Row :=
  quotes.map (fun r => ⟨r.quote, r.author, r.tags, r.category_link⟩)

/-!  Interleaved model of the shared request counter.

The claims about the Budget Gate quantify over concurrent schedules, so the
relevant fragment of process_category is modelled as a small-step labelled
transition system: each walker (thread) is either about to evaluate the
loop condition of line 79 (atCheck), has passed it and is inside the
iteration body whose first action is the blocking requests.get of line 84
(atFetch), or has left the loop (finished).  The shared state is the
counter request_counter of line 48 plus a ghost count of requests.get
calls issued.  A whole iteration body (fetch, status test, increment,
parse, next-page test) is taken as one atomic step: this is coarser than
CPython, which can interleave anywhere and in particular releases the GIL
for the entire blocking fetch, so every trace of this model is realizable
by the script. -/

/-- Thread-local state of one walker: at the line 79 check with the given
page number, inside the iteration body (about to fetch) with the given
page number, or done. -/
inductive WStatus where
  | atCheck (page_number : Nat) : WStatus
  | atFetch (page_number : Nat) : WStatus
  | finished : WStatus
deriving DecidableEq

/-- Shared state of the concurrent run: the shared counter, the ghost
number of requests.get calls issued so far, and each walker's local
state. -/
structure CState where
  count : Nat
  attempts : Nat
  walkers : List WStatus
deriving DecidableEq

/-- One atomic step of some walker i.  check steps are the loop condition
of line 79 read against the current shared counter; a fetch step is one
iteration body starting with requests.get (line 84): it always issues one
attempt, and it increments the shared counter exactly when the response
status was 200 (line 85-88); after the body the walker either loops to the
next page (next link present) or leaves the loop. -/
inductive CStep (request_limit : Nat) : CState → CState → Prop
  | check_pass (s : CState) (i p : Nat) :
      s.walkers.get? i = some (WStatus.atCheck p) → s.count < request_limit →
      CStep request_limit s ⟨s.count, s.attempts, s.walkers.set i (WStatus.atFetch p)⟩
  | check_fail (s : CState) (i p : Nat) :
      s.walkers.get? i = some (WStatus.atCheck p) → ¬ s.count < request_limit →
      CStep request_limit s ⟨s.count, s.attempts, s.walkers.set i WStatus.finished⟩
  | fetch_fail (s : CState) (i p : Nat) :
      s.walkers.get? i = some (WStatus.atFetch p) →
      CStep request_limit s ⟨s.count, s.attempts + 1, s.walkers.set i WStatus.finished⟩
  | fetch_ok_next (s : CState) (i p : Nat) :
      s.walkers.get? i = some (WStatus.atFetch p) →
      CStep request_limit s
        ⟨s.count + 1, s.attempts + 1, s.walkers.set i (WStatus.atCheck (p + 1))⟩
  | fetch_ok_stop (s : CState) (i p : Nat) :
      s.walkers.get? i = some (WStatus.atFetch p) →
      CStep request_limit s ⟨s.count + 1, s.attempts + 1, s.walkers.set i WStatus.finished⟩

/-- The initial concurrent state for n walkers: counter 0, no attempts,
every walker about to run the line 79 check for page 1. -/
def initCState (n : Nat) : CState :=
  ⟨0, 0, List.replicate n (WStatus.atCheck 1)⟩

/-- A state the concurrent run with n walkers and the given request limit
can reach.  One walker runs per dispatched job, and the pending query of
line 41 is capped at request_limit, so a run of the script never has more
walkers than request_limit: the walker count is constrained accordingly,
and only configurations the script can produce are admitted.  (max_workers
bounds how many walkers run at once; any interleaving of up to n walkers,
n at most the cap, is realizable with max_workers = n.) -/
def ReachableC (request_limit n : Nat) (s : CState) : Prop :=
  n ≤ request_limit ∧ Relation.ReflTransGen (CStep request_limit) (initCState n) s

/-!  Concrete inputs used by the counterexamples and witnesses. -/

/-- A well-formed quote element: nonempty text and author xpath results,
two tags. -/
def demoQuote : QuoteElem := ⟨["A"], ["X"], ["t1", "t2"]⟩

/-- The record demoQuote yields on the first page of seed "s". -/
def demoRecord : Record := ⟨"A", "X", "t1 | t2", "s/page/1/"⟩

/-- A store failure oracle that never raises. -/
def noRaise : Nat → Bool := fun _ => false

/-- A store with one pending category with seed "s". -/
def oneCatStore : Store := ⟨[⟨0, "s", Status.pending⟩], []⟩

/-- A store with two pending categories. -/
def twoCatStore : Store := ⟨[⟨0, "a", Status.pending⟩, ⟨1, "b", Status.pending⟩], []⟩

/-- A fetch oracle whose every response is a 404. -/
def fetch404 : String → FetchOutcome := fun _ => FetchOutcome.response 404 ⟨false, [], false⟩

/-- A fetch oracle whose every call raises a transport error. -/
def fetchErr : String → FetchOutcome := fun _ => FetchOutcome.err

/-- A fetch oracle whose every response is a 200 page with one quote and no
next link. -/
def fetchOneQuote : String → FetchOutcome :=
  fun _ => FetchOutcome.response 200 ⟨false, [demoQuote], false⟩

/-- A store failure oracle that always raises. -/
def raiseAll : Nat → Bool := fun _ => true

/-- A store failure oracle that raises exactly for category id 1. -/
def raiseOn1 : Nat → Bool := fun i => decide (i = 1)

/-- A malformed quote element: its text xpath result is empty, so indexing
it with [0] raises. -/
def badQuote : QuoteElem := ⟨[], ["Y"], ["t"]⟩

/-- A fetch oracle for seed "s": page 1 is a 200 page with one quote and a
next link, every other page is a 404. -/
def fetchPage1ThenFail : String → FetchOutcome := fun u =>
  if u = "s/page/1/" then FetchOutcome.response 200 ⟨false, [demoQuote], true⟩
  else FetchOutcome.response 404 ⟨false, [], false⟩

/-- A fetch oracle for seed "s": page 1 is a 200 page with one quote and no
next link, every other call raises. -/
def fetchPage1Only : String → FetchOutcome := fun u =>
  if u = "s/page/1/" then FetchOutcome.response 200 ⟨false, [demoQuote], false⟩
  else FetchOutcome.err

/-- A fetch oracle for seed "s": page 3 is a 200 page with zero quote
elements and a next link, every other call raises. -/
def fetchPage3Empty : String → FetchOutcome := fun u =>
  if u = "s/page/3/" then FetchOutcome.response 200 ⟨false, [], true⟩
  else FetchOutcome.err

/-- A fetch oracle for seed "s": page 1 is a 200 page whose second quote
element is malformed, every other call raises. -/
def fetchPage1Malformed : String → FetchOutcome := fun u =>
  if u = "s/page/1/" then FetchOutcome.response 200 ⟨false, [demoQuote, badQuote, demoQuote], true⟩
  else FetchOutcome.err

/-!  Helper lemmas: extraction. -/

theorem extractQuotesLoop_mem (url : String) :
    ∀ qs r, r ∈ (extractQuotesLoop url qs).1 → ∃ q ∈ qs, mkRecordOfQuote url q = some r := by
  intro qs
  induction qs with
  | nil => intro r hr; simp [extractQuotesLoop] at hr
  | cons q rest ih =>
    intro r hr
    rcases ht : q.text.head? with _ | t
    · simp [extractQuotesLoop, ht] at hr
    · rcases ha : q.author.head? with _ | a
      · simp [extractQuotesLoop, ht, ha] at hr
      · simp only [extractQuotesLoop, ht, ha] at hr
        rcases List.mem_cons.mp hr with rfl | hr'
        · exact ⟨q, List.mem_cons_self q rest, by simp [mkRecordOfQuote, ht, ha]⟩
        · obtain ⟨q', hq', hmk⟩ := ih r hr'
          exact ⟨q', List.mem_cons_of_mem q hq', hmk⟩

theorem mkRecordOfQuote_fields {url : String} {q : QuoteElem} {r : Record}
    (h : mkRecordOfQuote url q = some r) :
    r.category_link = url ∧ r.tags = String.intercalate " | " q.tags := by
  unfold mkRecordOfQuote at h
  rcases ht : q.text.head? with _ | t <;> rw [ht] at h
  · simp at h
  · rcases ha : q.author.head? with _ | a <;> rw [ha] at h
    · simp at h
    · simp only [Option.some.injEq] at h
      subst h
      exact ⟨rfl, rfl⟩

theorem extractQuotesLoop_append_bad (url : String) (bad : QuoteElem) (rest : List QuoteElem)
    (hbad : mkRecordOfQuote url bad = none) :
    ∀ es, (∀ q ∈ es, (mkRecordOfQuote url q).isSome) →
      extractQuotesLoop url (es ++ bad :: rest) = (es.filterMap (mkRecordOfQuote url), true) := by
  intro es
  induction es with
  | nil =>
    intro _
    unfold mkRecordOfQuote at hbad
    rcases ht : bad.text.head? with _ | t <;> rw [ht] at hbad
    · simp [extractQuotesLoop, ht]
    · rcases ha : bad.author.head? with _ | a <;> rw [ha] at hbad
      · simp [extractQuotesLoop, ht, ha]
      · simp at hbad
  | cons e es' ih =>
    intro hgood
    have he : (mkRecordOfQuote url e).isSome := hgood e (List.mem_cons_self e es')
    rw [Option.isSome_iff_exists] at he
    obtain ⟨r, hr⟩ := he
    unfold mkRecordOfQuote at hr
    rcases ht : e.text.head? with _ | t <;> rw [ht] at hr
    · simp at hr
    · rcases ha : e.author.head? with _ | a <;> rw [ha] at hr
      · simp at hr
      · have ihmk : mkRecordOfQuote url e = some ⟨t, a, String.intercalate " | " e.tags, url⟩ := by
          simp [mkRecordOfQuote, ht, ha]
        have htail := ih (fun q hq => hgood q (List.mem_cons_of_mem e hq))
        simp only [List.cons_append, extractQuotesLoop, ht, ha, List.append_eq, htail,
          List.filterMap_cons, ihmk]

/-!  Helper lemmas: statusOf and markDone. -/

theorem markDone_quotes (store : Store) (i : Nat) : (markDone store i).quotes = store.quotes := rfl

theorem statusOf_quotes_irrel (store : Store) (q : List Record) (i : Nat) :
    statusOf { store with quotes := q } i = statusOf store i := rfl

theorem statusOf_markDone_self (store : Store) (i : Nat) :
    statusOf (markDone store i) i = (statusOf store i).map (fun _ => Status.done) := by
  unfold statusOf markDone
  rw [List.find?_map]
  have hcomp : ((fun c : CategoryJob => decide (c.id = i)) ∘
      (fun c : CategoryJob => if c.id = i then { c with status := Status.done } else c)) =
      fun c : CategoryJob => decide (c.id = i) := by
    funext c
    by_cases h : c.id = i <;> simp [h]
  rw [hcomp]
  cases hfind : List.find? (fun c : CategoryJob => decide (c.id = i)) store.categories with
  | none => simp
  | some c =>
    have hid : c.id = i := by simpa using List.find?_some hfind
    simp [hid]

theorem statusOf_markDone_ne (store : Store) (i j : Nat) (hij : j ≠ i) :
    statusOf (markDone store i) j = statusOf store j := by
  unfold statusOf markDone
  rw [List.find?_map]
  have hcomp : ((fun c : CategoryJob => decide (c.id = j)) ∘
      (fun c : CategoryJob => if c.id = i then { c with status := Status.done } else c)) =
      fun c : CategoryJob => decide (c.id = j) := by
    funext c
    by_cases h : c.id = i <;> simp [h]
  rw [hcomp]
  cases hfind : List.find? (fun c : CategoryJob => decide (c.id = j)) store.categories with
  | none => simp
  | some c =>
    have hid : c.id = j := by simpa using List.find?_some hfind
    have hne : ¬ c.id = i := by omega
    simp [hne]

theorem find?_id_eq_self :
    ∀ l : List CategoryJob, (l.map CategoryJob.id).Nodup →
      ∀ c ∈ l, l.find? (fun x => decide (x.id = c.id)) = some c := by
  intro l
  induction l with
  | nil => intro _ c hc; simp at hc
  | cons d rest ih =>
    intro hnd c hc
    rw [List.map_cons, List.nodup_cons] at hnd
    rcases List.mem_cons.mp hc with rfl | hc'
    · simp [List.find?]
    · have hne : ¬ d.id = c.id := by
        intro he
        exact hnd.1 (he ▸ List.mem_map_of_mem CategoryJob.id hc')
      simp only [List.find?, hne, decide_eq_true_eq, if_neg]
      · exact ih hnd.2 c hc'

theorem statusOf_eq_of_mem {store : Store}
    (hnd : (store.categories.map CategoryJob.id).Nodup)
    {c : CategoryJob} (hc : c ∈ store.categories) :
    statusOf store c.id = some c.status := by
  unfold statusOf
  rw [find?_id_eq_self store.categories hnd c hc]
  rfl

/-!  Helper lemmas: process_category. -/

theorem process_category_noRaise (fetch : String → FetchOutcome) (request_limit : Nat)
    (iR uR : Nat → Bool) (store : Store) (category : CategoryJob) (count : Nat)
    (hiR : iR category.id = false) (huR : uR category.id = false) :
    process_category fetch request_limit iR uR store category count =
      ⟨markDone
          { store with quotes := store.quotes ++
              (processCategoryWalk fetch request_limit category.page_url count).records }
          category.id,
        (processCategoryWalk fetch request_limit category.page_url count).count,
        processCategoryWalk fetch request_limit category.page_url count, false⟩ := by
  unfold process_category
  rw [if_neg (by simp [hiR]), if_neg (by simp [huR])]
  by_cases hw : (processCategoryWalk fetch request_limit category.page_url count).records = []
  · rw [if_pos hw, hw, List.append_nil]
  · rw [if_neg hw]

theorem process_category_updateRaise (fetch : String → FetchOutcome) (request_limit : Nat)
    (iR uR : Nat → Bool) (store : Store) (category : CategoryJob) (count : Nat)
    (hiR : iR category.id = false) (huR : uR category.id = true) :
    (process_category fetch request_limit iR uR store category count).raised = true ∧
    (process_category fetch request_limit iR uR store category count).store.categories =
      store.categories := by
  unfold process_category
  rw [if_neg (by simp [hiR]), if_pos (by simp [huR])]
  constructor
  · rfl
  · by_cases hw : (processCategoryWalk fetch request_limit category.page_url count).records = []
    · rw [if_pos hw]
    · rw [if_neg hw]

theorem process_category_status_ne (fetch : String → FetchOutcome) (request_limit : Nat)
    (iR uR : Nat → Bool) (store : Store) (category : CategoryJob) (count : Nat)
    (j : Nat) (hj : j ≠ category.id) :
    statusOf (process_category fetch request_limit iR uR store category count).store j =
      statusOf store j := by
  unfold process_category
  by_cases h1 : (processCategoryWalk fetch request_limit category.page_url count).records ≠ [] ∧
      iR category.id = true
  · rw [if_pos h1]
  · rw [if_neg h1]
    by_cases h2 : uR category.id
    · rw [if_pos h2]
      by_cases hw : (processCategoryWalk fetch request_limit category.page_url count).records = []
      · rw [if_pos hw]
      · rw [if_neg hw]
        rfl
    · rw [if_neg h2]
      by_cases hw : (processCategoryWalk fetch request_limit category.page_url count).records = []
      · rw [if_pos hw]
        exact statusOf_markDone_ne store category.id j hj
      · rw [if_neg hw]
        exact statusOf_markDone_ne _ category.id j hj

theorem process_category_done_mono (fetch : String → FetchOutcome) (request_limit : Nat)
    (iR uR : Nat → Bool) (store : Store) (category : CategoryJob) (count : Nat)
    (j : Nat) (hj : statusOf store j = some Status.done) :
    statusOf (process_category fetch request_limit iR uR store category count).store j =
      some Status.done := by
  by_cases hje : j = category.id
  · subst hje
    unfold process_category
    by_cases h1 : (processCategoryWalk fetch request_limit category.page_url count).records ≠ [] ∧
        iR category.id = true
    · rw [if_pos h1]; exact hj
    · rw [if_neg h1]
      by_cases h2 : uR category.id
      · rw [if_pos h2]
        by_cases hw : (processCategoryWalk fetch request_limit category.page_url count).records = []
        · rw [if_pos hw]; exact hj
        · rw [if_neg hw]; exact hj
      · rw [if_neg h2]
        by_cases hw : (processCategoryWalk fetch request_limit category.page_url count).records = []
        · rw [if_pos hw, statusOf_markDone_self, hj]; rfl
        · rw [if_neg hw, statusOf_markDone_self, statusOf_quotes_irrel, hj]; rfl
  · rw [process_category_status_ne fetch request_limit iR uR store category count j hje]
    exact hj

/-!  Helper lemmas: pending_categories and runJobs. -/

theorem mem_pending_categories {store : Store} {request_limit : Nat} {c : CategoryJob}
    (h : c ∈ pending_categories store request_limit) :
    c ∈ store.categories ∧ c.status = Status.pending := by
  unfold pending_categories at h
  have h1 := List.mem_of_mem_take h
  rw [List.mem_filter] at h1
  exact ⟨h1.1, by simpa using h1.2⟩

theorem pending_categories_sublist (store : Store) (request_limit : Nat) :
    (pending_categories store request_limit).Sublist store.categories :=
  (List.take_sublist _ _).trans (List.filter_sublist _)

theorem pending_ids_nodup {store : Store}
    (h : (store.categories.map CategoryJob.id).Nodup) (request_limit : Nat) :
    ((pending_categories store request_limit).map CategoryJob.id).Nodup :=
  (List.Sublist.map CategoryJob.id (pending_categories_sublist store request_limit)).nodup h

theorem runJobs_status_ne (fetch : String → FetchOutcome) (request_limit : Nat)
    (iR uR : Nat → Bool) :
    ∀ (cats : List CategoryJob) (store : Store) (count j : Nat),
      j ∉ cats.map CategoryJob.id →
      statusOf (runJobs fetch request_limit iR uR cats store count).store j = statusOf store j := by
  intro cats
  induction cats with
  | nil => intro store count j _; rfl
  | cons c rest ih =>
    intro store count j hj
    rw [List.map_cons, List.mem_cons, not_or] at hj
    show statusOf (runJobs fetch request_limit iR uR rest
        (process_category fetch request_limit iR uR store c count).store
        (process_category fetch request_limit iR uR store c count).count).store j = _
    rw [ih _ _ j hj.2]
    exact process_category_status_ne fetch request_limit iR uR store c count j hj.1

theorem runJobs_done_mono (fetch : String → FetchOutcome) (request_limit : Nat)
    (iR uR : Nat → Bool) :
    ∀ (cats : List CategoryJob) (store : Store) (count j : Nat),
      statusOf store j = some Status.done →
      statusOf (runJobs fetch request_limit iR uR cats store count).store j =
        some Status.done := by
  intro cats
  induction cats with
  | nil => intro store count j hj; exact hj
  | cons c rest ih =>
    intro store count j hj
    exact ih _ _ j (process_category_done_mono fetch request_limit iR uR store c count j hj)

theorem runJobs_marks_done (fetch : String → FetchOutcome) (request_limit : Nat)
    (iR uR : Nat → Bool) :
    ∀ (cats : List CategoryJob) (store : Store) (count : Nat) (c : CategoryJob),
      (cats.map CategoryJob.id).Nodup → c ∈ cats →
      iR c.id = false → uR c.id = false →
      (statusOf store c.id).isSome →
      statusOf (runJobs fetch request_limit iR uR cats store count).store c.id =
        some Status.done := by
  intro cats
  induction cats with
  | nil => intro store count c _ hc; simp at hc
  | cons d rest ih =>
    intro store count c hnd hc hiR huR hsome
    rw [List.map_cons, List.nodup_cons] at hnd
    rcases List.mem_cons.mp hc with rfl | hc'
    · have hpc := process_category_noRaise fetch request_limit iR uR store c count hiR huR
      have hdone : statusOf (process_category fetch request_limit iR uR store c count).store c.id =
          some Status.done := by
        rw [hpc, statusOf_markDone_self, statusOf_quotes_irrel]
        rw [Option.isSome_iff_exists] at hsome
        obtain ⟨st, hst⟩ := hsome
        rw [hst]
        rfl
      exact runJobs_done_mono fetch request_limit iR uR rest _ _ c.id hdone
    · have hne : c.id ≠ d.id := by
        intro he
        exact hnd.1 (he ▸ List.mem_map_of_mem CategoryJob.id hc')
      have hpres := process_category_status_ne fetch request_limit iR uR store d count c.id hne
      exact ih _ _ c hnd.2 hc' hiR huR (by rw [hpres]; exact hsome)

theorem runJobs_status_frozen (fetch : String → FetchOutcome) (request_limit : Nat)
    (iR uR : Nat → Bool) :
    ∀ (cats : List CategoryJob) (store : Store) (count : Nat) (c : CategoryJob),
      (cats.map CategoryJob.id).Nodup → c ∈ cats →
      iR c.id = false → uR c.id = true →
      statusOf (runJobs fetch request_limit iR uR cats store count).store c.id =
        statusOf store c.id := by
  intro cats
  induction cats with
  | nil => intro store count c _ hc; simp at hc
  | cons d rest ih =>
    intro store count c hnd hc hiR huR
    rw [List.map_cons, List.nodup_cons] at hnd
    rcases List.mem_cons.mp hc with rfl | hc'
    · have hpc := process_category_updateRaise fetch request_limit iR uR store c count hiR huR
      have hfroz : statusOf (process_category fetch request_limit iR uR store c count).store c.id =
          statusOf store c.id := by
        unfold statusOf
        rw [hpc.2]
      show statusOf (runJobs fetch request_limit iR uR rest
          (process_category fetch request_limit iR uR store c count).store
          (process_category fetch request_limit iR uR store c count).count).store c.id = _
      rw [runJobs_status_ne fetch request_limit iR uR rest _ _ c.id
        (fun hmem => hnd.1 hmem), hfroz]
    · have hne : c.id ≠ d.id := by
        intro he
        exact hnd.1 (he ▸ List.mem_map_of_mem CategoryJob.id hc')
      show statusOf (runJobs fetch request_limit iR uR rest
          (process_category fetch request_limit iR uR store d count).store
          (process_category fetch request_limit iR uR store d count).count).store c.id = _
      rw [ih _ _ c hnd.2 hc' hiR huR]
      exact process_category_status_ne fetch request_limit iR uR store d count c.id hne

theorem runJobs_raised_of_mem (fetch : String → FetchOutcome) (request_limit : Nat)
    (iR uR : Nat → Bool) :
    ∀ (cats : List CategoryJob) (store : Store) (count : Nat) (c : CategoryJob),
      c ∈ cats → iR c.id = false → uR c.id = true →
      (runJobs fetch request_limit iR uR cats store count).raised = true := by
  intro cats
  induction cats with
  | nil => intro store count c hc; simp at hc
  | cons d rest ih =>
    intro store count c hc hiR huR
    rcases List.mem_cons.mp hc with rfl | hc'
    · have hpc := process_category_updateRaise fetch request_limit iR uR store c count hiR huR
      show ((process_category fetch request_limit iR uR store c count).raised || _) = true
      rw [hpc.1, Bool.true_or]
    · show (_ || (runJobs fetch request_limit iR uR rest _ _).raised) = true
      rw [ih _ _ c hc' hiR huR, Bool.or_true]

/-!  Helper lemma: the pagination loop walks good pages until a failing
fetch.  A good page answers 200, parses, extracts without raising, and has
a next link; the page at index p + len answers with a transport error or a
non-200 status.  The loop then returns the concatenation of the good
pages' records, outcome fetchError, the counter advanced by exactly the
len successful requests, and a fetch log of the len + 1 URLs tried. -/
theorem walk_fail_aux (fetch : String → FetchOutcome) (request_limit : Nat) (seed : String)
    (pg : Nat → Page) :
    ∀ (len fuel p count : Nat) (acc : List Record) (log : List String),
      len + 1 ≤ fuel →
      (∀ k, p ≤ k → k < p + len →
        fetch (paginatedUrl seed k) = FetchOutcome.response 200 (pg k) ∧
        (pg k).parseFail = false ∧
        (extractQuotesLoop (paginatedUrl seed k) (pg k).quotes).2 = false ∧
        (pg k).nextLink = true) →
      (fetch (paginatedUrl seed (p + len)) = FetchOutcome.err ∨
        ∃ sc pgN, sc ≠ 200 ∧ fetch (paginatedUrl seed (p + len)) = FetchOutcome.response sc pgN) →
      count + len < request_limit →
      processCategoryLoop fetch request_limit seed fuel p count acc log =
        ⟨acc ++ ((List.range' p len).map
            (fun k => (extractQuotesLoop (paginatedUrl seed k) (pg k).quotes).1)).flatten,
          Outcome.fetchError, count + len,
          log ++ (List.range' p (len + 1)).map (paginatedUrl seed)⟩ := by
  intro len
  induction len with
  | zero =>
    intro fuel p count acc log hfuel hgood hfail hbud
    match fuel, hfuel with
    | f + 1, _ =>
      rw [Nat.add_zero] at hfail hbud
      rcases hfail with hf | ⟨sc, pgN, hsc, hf⟩
      · simp only [processCategoryLoop, if_pos hbud, hf]
        simp [List.range'_succ]
      · simp only [processCategoryLoop, if_pos hbud, hf, if_pos hsc]
        simp [List.range'_succ]
  | succ n ih =>
    intro fuel p count acc log hfuel hgood hfail hbud
    match fuel, hfuel with
    | f + 1, hfuel =>
      have hg := hgood p (le_refl p) (by omega)
      have hlt : count < request_limit := by omega
      have h200 : ¬ ((200 : Nat) ≠ 200) := by simp
      simp only [processCategoryLoop, if_pos hlt, hg.1, if_neg h200, hg.2.1, Bool.false_eq_true,
        if_false, hg.2.2.1, hg.2.2.2, if_true]
      have hgood' : ∀ k, p + 1 ≤ k → k < p + 1 + n →
          fetch (paginatedUrl seed k) = FetchOutcome.response 200 (pg k) ∧
          (pg k).parseFail = false ∧
          (extractQuotesLoop (paginatedUrl seed k) (pg k).quotes).2 = false ∧
          (pg k).nextLink = true := by
        intro k hk1 hk2
        exact hgood k (by omega) (by omega)
      have hfail' : fetch (paginatedUrl seed (p + 1 + n)) = FetchOutcome.err ∨
          ∃ sc pgN, sc ≠ 200 ∧
            fetch (paginatedUrl seed (p + 1 + n)) = FetchOutcome.response sc pgN := by
        have he : p + 1 + n = p + (n + 1) := by omega
        rw [he]
        exact hfail
      rw [ih f (p + 1) (count + 1) _ _ (by omega) hgood' hfail' (by omega)]
      have hc : count + 1 + n = count + (n + 1) := by omega
      rw [hc, List.range'_succ p n, List.range'_succ p (n + 1)]
      simp [List.append_assoc]

/-!  Helper lemma: every record the pagination loop accumulates beyond its
starting list was built by the extraction of lines 94-103 from some quote
element of some page with number at least the starting page. -/
theorem walk_records_provenance (fetch : String → FetchOutcome) (request_limit : Nat)
    (seed : String) :
    ∀ (fuel p count : Nat) (acc : List Record) (log : List String) (r : Record),
      r ∈ (processCategoryLoop fetch request_limit seed fuel p count acc log).records →
      r ∈ acc ∨ ∃ k q, p ≤ k ∧ mkRecordOfQuote (paginatedUrl seed k) q = some r := by
  intro fuel
  induction fuel with
  | zero => intro p count acc log r hr; exact Or.inl hr
  | succ f ih =>
    intro p count acc log r hr
    by_cases hlt : count < request_limit
    · simp only [processCategoryLoop, if_pos hlt] at hr
      cases hfetch : fetch (paginatedUrl seed p) with
      | err => rw [hfetch] at hr; exact Or.inl hr
      | response sc pg =>
        simp only [hfetch] at hr
        by_cases hsc : sc ≠ 200
        · rw [if_pos hsc] at hr
          exact Or.inl hr
        · rw [if_neg hsc] at hr
          by_cases hpf : pg.parseFail = true
          · rw [if_pos hpf] at hr
            exact Or.inl hr
          · rw [if_neg hpf] at hr
            have hsplit : ∀ r', r' ∈ acc ++ (extractQuotesLoop (paginatedUrl seed p) pg.quotes).1 →
                r' ∈ acc ∨ ∃ k q, p ≤ k ∧ mkRecordOfQuote (paginatedUrl seed k) q = some r' := by
              intro r' hr'
              rcases List.mem_append.mp hr' with h | h
              · exact Or.inl h
              · obtain ⟨q, _, hmk⟩ := extractQuotesLoop_mem (paginatedUrl seed p) pg.quotes r' h
                exact Or.inr ⟨p, q, le_refl p, hmk⟩
            by_cases hex : (extractQuotesLoop (paginatedUrl seed p) pg.quotes).2 = true
            · rw [if_pos hex] at hr
              exact hsplit r hr
            · rw [if_neg hex] at hr
              by_cases hnl : pg.nextLink = true
              · rw [if_pos hnl] at hr
                rcases ih (p + 1) (count + 1) _ _ r hr with h | ⟨k, q, hk, hmk⟩
                · exact hsplit r h
                · exact Or.inr ⟨k, q, by omega, hmk⟩
              · rw [if_neg hnl] at hr
                exact hsplit r hr
    · simp only [processCategoryLoop, if_neg hlt] at hr
      exact Or.inl hr

/-!  Claim theorems. -/

/-- C1: the claim says the budget check and the counter increment act as a
single atomic step, so that across all concurrency levels the total number
of fetch attempts never exceeds the configured request limit.  In the code
the check (line 79) and the increment (line 88) are separated by the
blocking requests.get call and protected by no lock, so two walkers can
both pass the check before either increments.  This theorem evaluates the
code at the failing input, a configuration the script can produce (the two
walkers respect the line 41 cap of request_limit jobs): with request limit
2 and two dispatched walkers, both pass the check at counter 0; walker 0
completes page 1 (a 200 with a next link, counter 1), passes the check
again at counter 1 and completes page 2 while walker 1's first fetch is
still in flight; walker 1's fetch then completes too.  A state with 3
issued fetch attempts (and final counter 3) is reachable — the limit 2 is
exceeded, refuting the claimed invariant. -/
theorem budget_check_increment_race :
    ReachableC 2 2 ⟨3, 3, [WStatus.finished, WStatus.finished]⟩ ∧
      2 < (CState.mk 3 3 [WStatus.finished, WStatus.finished]).attempts := by
  refine ⟨⟨le_refl 2, ?_⟩, by decide⟩
  refine Relation.ReflTransGen.head
    (CStep.check_pass ⟨0, 0, [WStatus.atCheck 1, WStatus.atCheck 1]⟩ 0 1 rfl (by decide)) ?_
  refine Relation.ReflTransGen.head
    (CStep.check_pass ⟨0, 0, [WStatus.atFetch 1, WStatus.atCheck 1]⟩ 1 1 rfl (by decide)) ?_
  refine Relation.ReflTransGen.head
    (CStep.fetch_ok_next ⟨0, 0, [WStatus.atFetch 1, WStatus.atFetch 1]⟩ 0 1 rfl) ?_
  refine Relation.ReflTransGen.head
    (CStep.check_pass ⟨1, 1, [WStatus.atCheck 2, WStatus.atFetch 1]⟩ 0 2 rfl (by decide)) ?_
  refine Relation.ReflTransGen.head
    (CStep.fetch_ok_stop ⟨1, 1, [WStatus.atFetch 2, WStatus.atFetch 1]⟩ 0 2 rfl) ?_
  refine Relation.ReflTransGen.head
    (CStep.fetch_ok_stop ⟨2, 2, [WStatus.finished, WStatus.atFetch 1]⟩ 1 1 rfl) ?_
  exact Relation.ReflTransGen.refl

/-- C2: the claim says every fetch attempt issued — including one failing
with a non-2xx status or transport error — is counted, and the final
counter reported in the summary equals the total number of attempts.  In
the code the increment (line 88) happens only after the status test of
line 85 passes, so a 404 attempt is issued but never counted.  This
theorem evaluates the code at the failing input: one pending category,
request limit 1, the only fetch answers 404 — one attempt is issued, yet
the summary reports 0 requests. -/
theorem failed_fetch_not_counted :
    (runCrawl fetch404 noRaise noRaise 1 oneCatStore).attempts = 1 ∧
    (runCrawl fetch404 noRaise noRaise 1 oneCatStore).summary = Except.ok ⟨0, 1⟩ :=
  ⟨rfl, rfl⟩

/-- C3 counterexample: the claim says a store write failure during append
or mark-done is caught within the job, recorded in the run summary, and
never thrown so as to abort the whole run.  The insert of line 116 sits
outside the try/except and future.result() (line 127) re-raises, so with
one job whose insert raises, the run aborts (no summary) and the job stays
pending. -/
theorem store_error_aborts_run_cex :
    (runCrawl fetchOneQuote raiseAll noRaise 1 oneCatStore).summary = Except.error () ∧
    statusOf (runCrawl fetchOneQuote raiseAll noRaise 1 oneCatStore).store 0 =
      some Status.pending :=
  ⟨rfl, rfl⟩

/-- C3 amended: a store write failure during append or mark-done is not
caught within the job's boundary and no error list reaches a summary: the
exception propagates out of the job, future.result() re-raises it, and the
run aborts before reporting; the failing job is left pending (never marked
done).  Failures are still isolated between jobs' stores: every other
submitted job runs to completion and, when its own store calls do not
raise, is appended and marked done. -/
theorem store_error_uncaught_aborts (fetch : String → FetchOutcome)
    (iR uR : Nat → Bool) (request_limit : Nat) (store : Store) (c : CategoryJob)
    (hnodup : (store.categories.map CategoryJob.id).Nodup)
    (hmem : c ∈ pending_categories store request_limit)
    (hiR : iR c.id = false) (huR : uR c.id = true) :
    (runCrawl fetch iR uR request_limit store).summary = Except.error () ∧
    statusOf (runCrawl fetch iR uR request_limit store).store c.id = some Status.pending ∧
    ∀ d, d ∈ pending_categories store request_limit → d.id ≠ c.id →
      iR d.id = false → uR d.id = false →
      statusOf (runCrawl fetch iR uR request_limit store).store d.id = some Status.done := by
  have hmemstore := mem_pending_categories hmem
  have hnd' := pending_ids_nodup hnodup request_limit
  refine ⟨?_, ?_, ?_⟩
  · have hraised := runJobs_raised_of_mem fetch request_limit iR uR
      (pending_categories store request_limit) store 0 c hmem hiR huR
    simp [runCrawl, hraised]
  · have hfroz := runJobs_status_frozen fetch request_limit iR uR
      (pending_categories store request_limit) store 0 c hnd' hmem hiR huR
    have hst := statusOf_eq_of_mem hnodup hmemstore.1
    show statusOf (runJobs fetch request_limit iR uR
        (pending_categories store request_limit) store 0).store c.id = some Status.pending
    rw [hfroz, hst, hmemstore.2]
  · intro d hd hdne hdiR hduR
    have hsome : (statusOf store d.id).isSome := by
      rw [statusOf_eq_of_mem hnodup (mem_pending_categories hd).1]
      rfl
    exact runJobs_marks_done fetch request_limit iR uR
      (pending_categories store request_limit) store 0 d hnd' hd hdiR hduR hsome

/-- Witness for the amended C3: two pending categories, update_one raises
for category 1 only — the run aborts with no summary, category 1 stays
pending, while category 0 still ends done. -/
theorem store_error_uncaught_aborts_witness :
    (runCrawl fetchErr noRaise raiseOn1 2 twoCatStore).summary = Except.error () ∧
    statusOf (runCrawl fetchErr noRaise raiseOn1 2 twoCatStore).store 1 = some Status.pending ∧
    statusOf (runCrawl fetchErr noRaise raiseOn1 2 twoCatStore).store 0 = some Status.done := by
  have h := store_error_uncaught_aborts fetchErr noRaise raiseOn1 2 twoCatStore
    ⟨1, "b", Status.pending⟩ (by decide) (by decide) rfl rfl
  exact ⟨h.1, h.2.1, h.2.2 ⟨0, "a", Status.pending⟩ (by decide) (by decide) rfl rfl⟩

/-- C4 counterexample: the claim says every CategoryJob pending at run
start is marked done at run end.  The pending query of line 41 is capped
at request_limit, so with request limit 1 and two pending categories the
second is pending at run start, is never dispatched, and is still pending
at run end. -/
theorem pending_beyond_cap_cex :
    statusOf twoCatStore 1 = some Status.pending ∧
    statusOf (runCrawl fetchErr noRaise noRaise 1 twoCatStore).store 1 =
      some Status.pending :=
  ⟨rfl, rfl⟩

/-- C4 amended: every CategoryJob actually selected at run start (the
pending query is capped at request_limit; pending jobs beyond the cap are
not dispatched and stay pending) whose store insert and update do not
raise is marked done at run end, whichever of the three terminal outcomes
its walker reports; and a done status is never reversed during a run. -/
theorem selected_jobs_marked_done (fetch : String → FetchOutcome)
    (iR uR : Nat → Bool) (request_limit : Nat) (store : Store) (c : CategoryJob)
    (hnodup : (store.categories.map CategoryJob.id).Nodup)
    (hmem : c ∈ pending_categories store request_limit)
    (hiR : iR c.id = false) (huR : uR c.id = false) :
    statusOf (runCrawl fetch iR uR request_limit store).store c.id = some Status.done ∧
    ∀ j, statusOf store j = some Status.done →
      statusOf (runCrawl fetch iR uR request_limit store).store j = some Status.done := by
  constructor
  · have hsome : (statusOf store c.id).isSome := by
      rw [statusOf_eq_of_mem hnodup (mem_pending_categories hmem).1]
      rfl
    exact runJobs_marks_done fetch request_limit iR uR
      (pending_categories store request_limit) store 0 c
      (pending_ids_nodup hnodup request_limit) hmem hiR huR hsome
  · intro j hj
    exact runJobs_done_mono fetch request_limit iR uR
      (pending_categories store request_limit) store 0 j hj

/-- Witness for the amended C4: with request limit 2 both pending
categories are selected, and category 1 (whose walker ends in a transport
error on its first fetch) is still marked done. -/
theorem selected_jobs_marked_done_witness :
    statusOf (runCrawl fetchErr noRaise noRaise 2 twoCatStore).store 1 =
      some Status.done :=
  (selected_jobs_marked_done fetchErr noRaise noRaise 2 twoCatStore
    ⟨1, "b", Status.pending⟩ (by decide) (by decide) rfl rfl).1

/-- C8 counterexample: the claim says the per-run cap on categories
considered is a parameter separate from the fetch budget.  In the code the
query of line 41 is capped at request_limit itself: changing only the
fetch budget from 1 to 2, with the same store, changes the number of
categories processed from 1 to 2, so there is no separate cap
parameter. -/
theorem cap_equals_budget_cex :
    (runCrawl fetchErr noRaise noRaise 1 twoCatStore).summary = Except.ok ⟨0, 1⟩ ∧
    (runCrawl fetchErr noRaise noRaise 2 twoCatStore).summary = Except.ok ⟨0, 2⟩ :=
  ⟨rfl, rfl⟩

/-- C8 amended: at run start the scheduler queries the store for the jobs
with status pending, capped at request_limit — the fetch budget parameter
itself, reused as the per-run cap on categories considered. -/
theorem pending_query_capped (store : Store) (request_limit : Nat) :
    (pending_categories store request_limit).length ≤ request_limit ∧
    ∀ c, c ∈ pending_categories store request_limit →
      c.status = Status.pending ∧ c ∈ store.categories := by
  constructor
  · unfold pending_categories
    rw [List.length_take]
    exact inf_le_left
  · intro c hc
    exact ⟨(mem_pending_categories hc).2, (mem_pending_categories hc).1⟩

/-- Witness for the amended C8: with two pending categories and request
limit 1 the query returns at most one category, and the selected category
0 is a pending document of the store. -/
theorem pending_query_capped_witness :
    (pending_categories twoCatStore 1).length ≤ 1 ∧
    CategoryJob.mk 0 "a" Status.pending ∈ twoCatStore.categories := by
  refine ⟨(pending_query_capped twoCatStore 1).1, ?_⟩
  exact ((pending_query_capped twoCatStore 1).2 ⟨0, "a", Status.pending⟩ (by decide)).2

/-- C5: a job whose fetch of page N fails (non-2xx status or transport
error) terminates its pagination loop at page N — its fetch log is exactly
the URLs of pages 1..N — retains the records collected from pages 1..N-1,
and, its own store calls not raising, has those records appended to the
store and is still marked done; the failing fetch is not counted, so the
counter advances by exactly N-1. -/
theorem fetch_error_keeps_prior_pages (fetch : String → FetchOutcome)
    (request_limit : Nat) (iR uR : Nat → Bool) (store : Store) (category : CategoryJob)
    (N : Nat) (pg : Nat → Page)
    (hN : 1 ≤ N)
    (hgood : ∀ k, 1 ≤ k → k < N →
      fetch (paginatedUrl category.page_url k) = FetchOutcome.response 200 (pg k) ∧
      (pg k).parseFail = false ∧
      (extractQuotesLoop (paginatedUrl category.page_url k) (pg k).quotes).2 = false ∧
      (pg k).nextLink = true)
    (hfail : fetch (paginatedUrl category.page_url N) = FetchOutcome.err ∨
      ∃ sc pgN, sc ≠ 200 ∧
        fetch (paginatedUrl category.page_url N) = FetchOutcome.response sc pgN)
    (hbud : N ≤ request_limit)
    (hiR : iR category.id = false) (huR : uR category.id = false) :
    (process_category fetch request_limit iR uR store category 0).walk =
      ⟨((List.range' 1 (N - 1)).map
          (fun k => (extractQuotesLoop (paginatedUrl category.page_url k) (pg k).quotes).1)).flatten,
        Outcome.fetchError, N - 1,
        (List.range' 1 N).map (paginatedUrl category.page_url)⟩ ∧
    (process_category fetch request_limit iR uR store category 0).store.quotes =
      store.quotes ++ ((List.range' 1 (N - 1)).map
          (fun k => (extractQuotesLoop (paginatedUrl category.page_url k) (pg k).quotes).1)).flatten ∧
    statusOf (process_category fetch request_limit iR uR store category 0).store category.id =
      (statusOf store category.id).map (fun _ => Status.done) ∧
    (process_category fetch request_limit iR uR store category 0).raised = false := by
  obtain ⟨n, rfl⟩ : ∃ n, N = n + 1 := ⟨N - 1, by omega⟩
  have hwalk : processCategoryWalk fetch request_limit category.page_url 0 =
      ⟨((List.range' 1 n).map
          (fun k => (extractQuotesLoop (paginatedUrl category.page_url k) (pg k).quotes).1)).flatten,
        Outcome.fetchError, n,
        (List.range' 1 (n + 1)).map (paginatedUrl category.page_url)⟩ := by
    unfold processCategoryWalk
    rw [Nat.sub_zero]
    have hgood' : ∀ k, 1 ≤ k → k < 1 + n →
        fetch (paginatedUrl category.page_url k) = FetchOutcome.response 200 (pg k) ∧
        (pg k).parseFail = false ∧
        (extractQuotesLoop (paginatedUrl category.page_url k) (pg k).quotes).2 = false ∧
        (pg k).nextLink = true := fun k hk1 hk2 => hgood k hk1 (by omega)
    have hfail' : fetch (paginatedUrl category.page_url (1 + n)) = FetchOutcome.err ∨
        ∃ sc pgN, sc ≠ 200 ∧
          fetch (paginatedUrl category.page_url (1 + n)) = FetchOutcome.response sc pgN := by
      have he : 1 + n = n + 1 := by omega
      rw [he]
      exact hfail
    have h := walk_fail_aux fetch request_limit category.page_url pg n request_limit 1 0 [] []
      (by omega) hgood' hfail' (by omega)
    rw [h]
    simp
  have hpc := process_category_noRaise fetch request_limit iR uR store category 0 hiR huR
  refine ⟨?_, ?_, ?_, ?_⟩
  · rw [hpc]
    simp [hwalk]
  · rw [hpc]
    show ({ store with quotes := store.quotes ++
        (processCategoryWalk fetch request_limit category.page_url 0).records } : Store).quotes = _
    rw [hwalk]
    simp
  · rw [hpc, statusOf_markDone_self, statusOf_quotes_irrel]
  · rw [hpc]

/-- Witness for C5: seed "s", page 1 good with one quote and a next link,
page 2 a 404 — the job keeps the page 1 record, fetched exactly pages 1
and 2, and is marked done with the record appended. -/
theorem fetch_error_keeps_prior_pages_witness :
    (process_category fetchPage1ThenFail 2 noRaise noRaise oneCatStore
        ⟨0, "s", Status.pending⟩ 0).walk =
      ⟨[demoRecord], Outcome.fetchError, 1, ["s/page/1/", "s/page/2/"]⟩ ∧
    (process_category fetchPage1ThenFail 2 noRaise noRaise oneCatStore
        ⟨0, "s", Status.pending⟩ 0).store.quotes = [demoRecord] ∧
    statusOf (process_category fetchPage1ThenFail 2 noRaise noRaise oneCatStore
        ⟨0, "s", Status.pending⟩ 0).store 0 = some Status.done := by
  have h := fetch_error_keeps_prior_pages fetchPage1ThenFail 2 noRaise noRaise oneCatStore
    ⟨0, "s", Status.pending⟩ 2 (fun _ => ⟨false, [demoQuote], true⟩)
    (by decide)
    (by intro k h1 h2
        have hk : k = 1 := by omega
        subst hk
        exact ⟨by decide, rfl, by decide, rfl⟩)
    (Or.inr ⟨404, ⟨false, [], false⟩, by decide, by decide⟩)
    (by decide) rfl rfl
  exact ⟨h.1.trans (by decide), h.2.1.trans (by decide), h.2.2.1.trans (by decide)⟩

/-- C6: a job whose first page fetch succeeds, yields some records, and has
no next-page link (with budget available) performs exactly one fetch — of
the URL seedURL ++ "/page/1/" — terminates with outcome Exhausted, and its
collected records are exactly the records extracted from that page. -/
theorem one_page_no_next (fetch : String → FetchOutcome) (request_limit : Nat)
    (seed : String) (pg : Page) (rs : List Record)
    (hbud : 0 < request_limit)
    (hfetch : fetch (paginatedUrl seed 1) = FetchOutcome.response 200 pg)
    (hparse : pg.parseFail = false)
    (hex : extractQuotesLoop (paginatedUrl seed 1) pg.quotes = (rs, false))
    (hrs : rs ≠ [])
    (hnext : pg.nextLink = false) :
    processCategoryWalk fetch request_limit seed 0 =
      ⟨rs, Outcome.exhausted, 1, [seed ++ "/page/1/"]⟩ := by
  have hurl : paginatedUrl seed 1 = seed ++ "/page/1/" := rfl
  obtain ⟨l, rfl⟩ : ∃ l, request_limit = l + 1 := ⟨request_limit - 1, by omega⟩
  unfold processCategoryWalk
  rw [Nat.sub_zero]
  simp only [processCategoryLoop, if_pos hbud, hfetch, hparse, hex, hnext]
  simp [hurl]

/-- Witness for C6: seed "s", a single 200 page with one quote and no next
link — one fetch of "s/page/1/", outcome Exhausted, exactly that page's
record. -/
theorem one_page_no_next_witness :
    processCategoryWalk fetchPage1Only 1 "s" 0 =
      ⟨[demoRecord], Outcome.exhausted, 1, ["s/page/1/"]⟩ :=
  (one_page_no_next fetchPage1Only 1 "s" ⟨false, [demoQuote], false⟩ [demoRecord]
    (by decide) (by decide) rfl (by decide) (by decide) rfl).trans (by decide)

/-- C7: a page whose fetch succeeds (HTTP 200, parsing fine) but which
contains zero quote elements still counts toward the shared budget — the
counter advances by one — and, a next-page link being present, the loop
continues with the next page number and an unchanged record list. -/
theorem empty_page_continues (fetch : String → FetchOutcome) (request_limit : Nat)
    (seed : String) (fuel page_number count : Nat) (acc : List Record) (log : List String)
    (pg : Page)
    (hc : count < request_limit)
    (hfetch : fetch (paginatedUrl seed page_number) = FetchOutcome.response 200 pg)
    (hparse : pg.parseFail = false)
    (hquotes : pg.quotes = [])
    (hnext : pg.nextLink = true) :
    processCategoryLoop fetch request_limit seed (fuel + 1) page_number count acc log =
      processCategoryLoop fetch request_limit seed fuel (page_number + 1) (count + 1) acc
        (log ++ [paginatedUrl seed page_number]) := by
  simp only [processCategoryLoop, if_pos hc, hfetch, hparse, hquotes, hnext]
  simp [extractQuotesLoop]

/-- Witness for C7: page 3 of seed "s" is a 200 page with no quote elements
and a next link; from counter 0 the loop moves to page 4 with counter 1 and
no records. -/
theorem empty_page_continues_witness :
    processCategoryLoop fetchPage3Empty 5 "s" 2 3 0 [] [] =
      processCategoryLoop fetchPage3Empty 5 "s" 1 4 1 [] ["s/page/3/"] := by
  have h := empty_page_continues fetchPage3Empty 5 "s" 1 3 0 [] [] ⟨false, [], true⟩
    (by decide) (by decide) rfl rfl rfl
  exact h.trans (by decide)

/-- C9: every record the walker collects has its tags field equal to a
" | "-joined tag list and its category_link equal to the paginated URL of
some walked page; and the export serializes exactly one row per stored
record, each row carrying exactly the record's four fields quote, author,
tags, category_link. -/
theorem export_one_row_per_record (fetch : String → FetchOutcome) (request_limit : Nat)
    (seed : String) (count : Nat) (quotes : List Record) :
    (∀ r, r ∈ (processCategoryWalk fetch request_limit seed count).records →
      ∃ k ts, r.category_link = paginatedUrl seed k ∧
        r.tags = String.intercalate " | " ts) ∧
    (export_data quotes).length = quotes.length ∧
    ∀ i (h1 : i < quotes.length) (h2 : i < (export_data quotes).length),
      (export_data quotes).get ⟨i, h2⟩ =
        ⟨(quotes.get ⟨i, h1⟩).quote, (quotes.get ⟨i, h1⟩).author,
          (quotes.get ⟨i, h1⟩).tags, (quotes.get ⟨i, h1⟩).category_link⟩ := by
  refine ⟨?_, ?_, ?_⟩
  · intro r hr
    rcases walk_records_provenance fetch request_limit seed (request_limit - count)
        1 count [] [] r hr with h | ⟨k, q, _, hmk⟩
    · simp at h
    · obtain ⟨hcl, htg⟩ := mkRecordOfQuote_fields hmk
      exact ⟨k, q.tags, hcl, htg⟩
  · simp [export_data]
  · intro i h1 h2
    simp [export_data]

/-- Witness for C9: the record collected from page 1 of seed "s" has a
joined tags field and the page URL as category_link, and exporting a
one-record store yields exactly one row with the four fields. -/
theorem export_one_row_per_record_witness :
    (∃ k ts, demoRecord.category_link = paginatedUrl "s" k ∧
      demoRecord.tags = String.intercalate " | " ts) ∧
    (export_data [demoRecord]).length = 1 ∧
    (export_data [demoRecord]).get ⟨0, by decide⟩ =
      ⟨"A", "X", "t1 | t2", "s/page/1/"⟩ := by
  have h := export_one_row_per_record fetchPage1Only 1 "s" 0 [demoRecord]
  refine ⟨h.1 demoRecord (by decide), h.2.1, ?_⟩
  exact (h.2.2 0 (by decide) (by decide)).trans (by decide)

/-- C10: when extracting one quote element of a page raises (its text or
author xpath result is empty), the records already appended from the
earlier elements of that same page are kept in the job's record sequence,
the loop stops with outcome fetchError, and — the store calls not
raising — those records are persisted and the job is still marked done:
the page's records are not appended atomically as a unit. -/
theorem malformed_element_keeps_earlier (fetch : String → FetchOutcome)
    (request_limit : Nat) (iR uR : Nat → Bool) (store : Store) (category : CategoryJob)
    (pg : Page) (es rest : List QuoteElem) (bad : QuoteElem)
    (hbud : 0 < request_limit)
    (hfetch : fetch (paginatedUrl category.page_url 1) = FetchOutcome.response 200 pg)
    (hparse : pg.parseFail = false)
    (hq : pg.quotes = es ++ bad :: rest)
    (hgood : ∀ q ∈ es, (mkRecordOfQuote (paginatedUrl category.page_url 1) q).isSome)
    (hbad : mkRecordOfQuote (paginatedUrl category.page_url 1) bad = none)
    (hiR : iR category.id = false) (huR : uR category.id = false) :
    (process_category fetch request_limit iR uR store category 0).walk.records =
      es.filterMap (mkRecordOfQuote (paginatedUrl category.page_url 1)) ∧
    (process_category fetch request_limit iR uR store category 0).walk.outcome =
      Outcome.fetchError ∧
    (process_category fetch request_limit iR uR store category 0).store.quotes =
      store.quotes ++ es.filterMap (mkRecordOfQuote (paginatedUrl category.page_url 1)) ∧
    statusOf (process_category fetch request_limit iR uR store category 0).store category.id =
      (statusOf store category.id).map (fun _ => Status.done) := by
  have hex := extractQuotesLoop_append_bad (paginatedUrl category.page_url 1) bad rest hbad es hgood
  have hwalk : processCategoryWalk fetch request_limit category.page_url 0 =
      ⟨es.filterMap (mkRecordOfQuote (paginatedUrl category.page_url 1)), Outcome.fetchError, 1,
        [paginatedUrl category.page_url 1]⟩ := by
    obtain ⟨l, rfl⟩ : ∃ l, request_limit = l + 1 := ⟨request_limit - 1, by omega⟩
    unfold processCategoryWalk
    rw [Nat.sub_zero]
    simp only [processCategoryLoop, if_pos hbud, hfetch, hparse, hq, hex]
    simp
  have hpc := process_category_noRaise fetch request_limit iR uR store category 0 hiR huR
  refine ⟨?_, ?_, ?_, ?_⟩
  · rw [hpc]
    simp [hwalk]
  · rw [hpc]
    simp [hwalk]
  · rw [hpc]
    show ({ store with quotes := store.quotes ++
        (processCategoryWalk fetch request_limit category.page_url 0).records } : Store).quotes = _
    rw [hwalk]
  · rw [hpc, statusOf_markDone_self, statusOf_quotes_irrel]

/-- Witness for C10: page 1 of seed "s" holds a good element, a malformed
element (empty text xpath) and another good element; the record of the
first element is kept, persisted, and the job is marked done. -/
theorem malformed_element_keeps_earlier_witness :
    (process_category fetchPage1Malformed 3 noRaise noRaise oneCatStore
        ⟨0, "s", Status.pending⟩ 0).walk.records = [demoRecord] ∧
    (process_category fetchPage1Malformed 3 noRaise noRaise oneCatStore
        ⟨0, "s", Status.pending⟩ 0).store.quotes = [demoRecord] ∧
    statusOf (process_category fetchPage1Malformed 3 noRaise noRaise oneCatStore
        ⟨0, "s", Status.pending⟩ 0).store 0 = some Status.done := by
  have h := malformed_element_keeps_earlier fetchPage1Malformed 3 noRaise noRaise oneCatStore
    ⟨0, "s", Status.pending⟩ ⟨false, [demoQuote, badQuote, demoQuote], true⟩
    [demoQuote] [demoQuote] badQuote
    (by decide) (by decide) rfl (by decide) (by decide) (by decide) rfl rfl
  exact ⟨h.1.trans (by decide), h.2.2.1.trans (by decide), h.2.2.2.trans (by decide)⟩
